import Mathlib

/-!
Shallow embedding of the `evemapping` signature data model, clipboard parser
and reconciliation (merge) engine, translated from `src/eve_data.rs` and
`src/state.rs`, together with theorems settling the specification claims.

Rust strings are modelled as Lean `String`; Rust's `str::split(sep)` for a
single-character separator is modelled by the structural `splitChar` below
(same semantics: at least one piece, empty pieces kept).  A Rust `panic!`
(the `unwrap()` in the `From<&ClipboardItem>` conversion) is modelled as
`Option.none` propagating through the computation.
-/

set_option autoImplicit false

namespace Evemapping

/-- Rust `str::split(sep)` on the character list of a string: always returns at
least one piece, keeps empty pieces. -/
def splitChar (sep : Char) : List Char → List (List Char)
  | [] => [[]]
  | c :: cs =>
    if c = sep then [] :: splitChar sep cs
    else
      match splitChar sep cs with
      | [] => [[c]]
      | p :: ps => (c :: p) :: ps

/-- `WormholeLife` from `src/eve_data.rs`. -/
inductive WormholeLife
  | Stable
  | EndOfLife
deriving DecidableEq

/-- `WormholeMass` from `src/eve_data.rs`. -/
inductive WormholeMass
  | Stable
  | Destab
  | Critical
deriving DecidableEq

/-- `SignatureId` from `src/eve_data.rs`: group code and numeric suffix, both
kept as raw strings. -/
structure SignatureId where
  id : String
  number : String
deriving DecidableEq

/-- The `Display` impl for `SignatureId`: `"{id}-{number}"`. -/
def SignatureId.display (s : SignatureId) : String :=
  s.id ++ "-" ++ s.number

/-- `SignatureWormhole` from `src/eve_data.rs`. -/
structure SignatureWormhole where
  wh_type : Option String
  destination : Option String
  life : WormholeLife
  mass : WormholeMass
deriving DecidableEq

/-- The `Default` impl for `SignatureWormhole`. -/
def SignatureWormhole.default : SignatureWormhole :=
  ⟨none, none, WormholeLife.Stable, WormholeMass.Stable⟩

/-- `SignatureType` from `src/eve_data.rs`. -/
inductive SignatureType
  | Unknown
  | Combat (name : Option String)
  | Wormhole (data : SignatureWormhole)
  | Ore (name : Option String)
  | Data (name : Option String)
  | Relic (name : Option String)
  | Gas (name : Option String)
deriving DecidableEq

/-- `SignatureType::has_name` from `src/eve_data.rs`. -/
def SignatureType.has_name : SignatureType → Bool
  | .Unknown => false
  | .Wormhole _ => true
  | .Combat name => name.isSome
  | .Ore name => name.isSome
  | .Data name => name.isSome
  | .Relic name => name.isSome
  | .Gas name => name.isSome

/-- `Signature` from `src/eve_data.rs`. -/
structure Signature where
  identifier : SignatureId
  signature_type : SignatureType
deriving DecidableEq

/-- `ClipboardItem` from `src/eve_data.rs`. -/
structure ClipboardItem where
  id : String
  sig_type : String
  sig_name : String
deriving DecidableEq

/-- The `name` binding of the `From<&ClipboardItem>` impl in
`src/eve_data.rs`: `None` when the raw name text is empty. -/
def clipName (val : ClipboardItem) : Option String :=
  if val.sig_name.data.isEmpty then none else some val.sig_name

/-- The `st` binding of the `From<&ClipboardItem>` impl in `src/eve_data.rs`:
the classification derived from the candidate's raw category text.  Note that
the chain tests only `"Wormhole"`, `"Gas"`, `"Relic"`, `"Data"` and
`"Combat"`; everything else (including `""` and `"Ore"`) derives `Unknown`. -/
def clipType (val : ClipboardItem) : SignatureType :=
  if val.sig_type = "Wormhole" then SignatureType.Wormhole SignatureWormhole.default
  else if val.sig_type = "Gas" then SignatureType.Gas (clipName val)
  else if val.sig_type = "Relic" then SignatureType.Relic (clipName val)
  else if val.sig_type = "Data" then SignatureType.Data (clipName val)
  else if val.sig_type = "Combat" then SignatureType.Combat (clipName val)
  else SignatureType.Unknown

/-- The `From<&ClipboardItem> for (SignatureId, SignatureType)` impl from
`src/eve_data.rs`.  The Rust code calls `.next().unwrap()` twice on
`val.id.split('-')`; the second `unwrap` panics when the id contains no `'-'`,
which is modelled here by returning `none`. -/
def ClipboardItem.toSig (val : ClipboardItem) : Option (SignatureId × SignatureType) :=
  match splitChar '-' val.id.data with
  | p1 :: p2 :: _ => some (⟨⟨p1⟩, ⟨p2⟩⟩, clipType val)
  | _ => none

/-- The body of the per-`new_type` match in pass 1 of `App::merge_in`
(`src/state.rs` lines 92–121): given the existing classification and the
classification proposed by the matching clipboard candidate, the resulting
classification. -/
def mergeStep (ex nw : SignatureType) : SignatureType :=
  match nw with
  | .Unknown => ex
  | .Wormhole _ =>
    match ex with
    | .Wormhole _ => ex
    | _ => .Wormhole SignatureWormhole.default
  | _ =>
    if nw.has_name then nw
    else if ex.has_name then ex
    else nw

/-- The match predicate of pass 1 of `App::merge_in` (`src/state.rs` line 90):
the candidate's raw id text equals the signature's rendered identifier. -/
def matchesId (sig : Signature) (d : ClipboardItem) : Bool :=
  d.id = sig.identifier.display

/-- One iteration of pass 1 of `App::merge_in`: look up the first candidate
whose raw id equals the signature's rendered identifier and, if found, convert
it (`check.into()`, which can panic → `none`) and apply `mergeStep`. -/
def updateSignature (new_data : List ClipboardItem) (sig : Signature) : Option Signature :=
  match new_data.find? (matchesId sig) with
  | none => some sig
  | some check =>
    match check.toSig with
    | none => none
    | some (_, new_type) => some { sig with signature_type := mergeStep sig.signature_type new_type }

/-- Pass 1 of `App::merge_in`: update every existing signature in order. -/
def updateAll (new_data : List ClipboardItem) : List Signature → Option (List Signature)
  | [] => some []
  | s :: rest =>
    match updateSignature new_data s with
    | none => none
    | some s' =>
      match updateAll new_data rest with
      | none => none
      | some rest' => some (s' :: rest')

/-- Pass 2 of `App::merge_in`: convert each candidate (possible panic →
`none`) and append it unless its derived `SignatureId` is in the id set
captured before pass 1. -/
def appendNew (existing_ids : List SignatureId) (existing : List Signature) :
    List ClipboardItem → Option (List Signature)
  | [] => some existing
  | c :: rest =>
    match c.toSig with
    | none => none
    | some (new_sig_id, new_sig_type) =>
      if new_sig_id ∈ existing_ids then appendNew existing_ids existing rest
      else appendNew existing_ids (existing ++ [⟨new_sig_id, new_sig_type⟩]) rest

/-- The list-level content of `App::merge_in` (`src/state.rs` lines 78–135):
capture the existing ids, run pass 1, then pass 2. -/
def mergeIn (existing : List Signature) (new_data : List ClipboardItem) :
    Option (List Signature) :=
  match updateAll new_data existing with
  | none => none
  | some updated => appendNew (existing.map (·.identifier)) updated new_data

/-- The category column string of `Signature::to_row` (`src/eve_data.rs`),
used to state claims that speak of a candidate having "the same category" as
an existing classification. -/
def SignatureType.categoryLabel : SignatureType → String
  | .Unknown => "Unknown"
  | .Combat _ => "Combat"
  | .Wormhole _ => "Wormhole"
  | .Ore _ => "Ore"
  | .Data _ => "Data"
  | .Relic _ => "Relic"
  | .Gas _ => "Gas"

/-- Whether a classification is one of the named site variants (everything
except `Unknown` and `Wormhole`). -/
def SignatureType.isNamedSite : SignatureType → Bool
  | .Combat _ => true
  | .Ore _ => true
  | .Data _ => true
  | .Relic _ => true
  | .Gas _ => true
  | _ => false

/-- The signature that pass 2 of `App::merge_in` appends for one candidate:
`none` when the candidate's derived id is already in the captured id set (or
when the conversion panics). -/
def newEntry (existing_ids : List SignatureId) (c : ClipboardItem) : Option Signature :=
  c.toSig.bind (fun p => if p.1 ∈ existing_ids then none else some ⟨p.1, p.2⟩)

/-- Rust `str::trim` (ASCII whitespace approximation): drop whitespace from
both ends of the character list. -/
def trimChars (l : List Char) : List Char :=
  ((l.dropWhile Char.isWhitespace).reverse.dropWhile Char.isWhitespace).reverse

/-- Rust `str::replace(pat, repl)` on character lists, fuel-driven so the
recursion is structural; the fuel is the length of the subject, which is
enough for the non-empty patterns used by the source. -/
def replaceAllAux (pat repl : List Char) : Nat → List Char → List Char
  | 0, s => s
  | _ + 1, [] => []
  | fuel + 1, c :: cs =>
    if pat.isPrefixOf (c :: cs) then repl ++ replaceAllAux pat repl fuel ((c :: cs).drop pat.length)
    else c :: replaceAllAux pat repl fuel cs

/-- Rust `str::replace` at the `String` level. -/
def replaceStr (s pat repl : String) : String :=
  ⟨replaceAllAux pat.data repl.data s.data.length s.data⟩

/-- Rust `str::split_terminator('\n')`: like split, but a trailing empty piece
(produced by a trailing newline or an empty input) is dropped. -/
def splitTerminatorNL (text : String) : List String :=
  let ps := splitChar '\n' text.data
  (if ps.getLast? = some [] then ps.dropLast else ps).map (fun p => (⟨p⟩ : String))

/-- The tab fields of one pasted line after `.split('\t').skip(2)`
(`src/eve_data.rs` line 409). -/
def lineParts (line : String) : List String :=
  ((splitChar '\t' line.data).drop 2).map (fun p => (⟨p⟩ : String))

/-- The body of the per-line loop of `parse_paste` (`src/eve_data.rs` lines
408–427): `none` means the line is skipped (its `continue` branch). -/
def parseLine (line : String) : Option ClipboardItem :=
  let id : String := ⟨line.data.take 7⟩
  match lineParts line with
  | [] => none
  | p0 :: rest =>
    if p0 = "Wormhole" then some ⟨id, "Wormhole", ""⟩
    else if p0 = "Gas Site" ∨ p0 = "Relic Site" ∨ p0 = "Data Site" ∨ p0 = "Combat Site" then
      some ⟨id, replaceStr p0 " Site" "", rest.headD ""⟩
    else some ⟨id, "", ""⟩

/-- `parse_paste` from `src/eve_data.rs`. -/
def parse_paste (text : String) : List ClipboardItem :=
  if (trimChars text.data).isEmpty then []
  else (splitTerminatorNL text).filterMap parseLine

/-- `ViewMode` from `src/state.rs`. -/
inductive ViewMode
  | Normal
  | Adding (sig : Signature)
  | Editing (sig : Signature)

/-- `App` from `src/state.rs`.  The `HashMap<String, Vec<Signature>>` is
modelled as a function `String → Option (List Signature)` (`none` = key
absent). -/
structure App where
  current_system : Option String
  system_data : String → Option (List Signature)
  data_index : Nat
  view : ViewMode

/-- `App::merge_in` from `src/state.rs`: no-op when no system is selected;
otherwise insert an empty list for the current system if absent, then run the
two merge passes on that system's list.  A panic inside the merge is `none`. -/
def App.merge_in (app : App) (new_data : List ClipboardItem) : Option App :=
  match app.current_system with
  | none => some app
  | some current_system =>
    let existing := (app.system_data current_system).getD []
    match mergeIn existing new_data with
    | none => none
    | some merged =>
      some { app with
              system_data := fun k => if k = current_system then some merged
                                      else app.system_data k }

/-! ### Helper lemmas about `splitChar` and the candidate conversion -/

theorem splitChar_ne_nil (sep : Char) (l : List Char) : splitChar sep l ≠ [] := by
  cases l with
  | nil => simp [splitChar]
  | cons c cs =>
    simp only [splitChar]
    split
    · simp
    · cases h : splitChar sep cs <;> simp

theorem notMem_of_mem_splitChar (sep : Char) (l : List Char) :
    ∀ p ∈ splitChar sep l, sep ∉ p := by
  induction l with
  | nil => simp [splitChar]
  | cons c cs ih =>
    intro p hp
    simp only [splitChar] at hp
    by_cases hc : c = sep
    · rw [if_pos hc] at hp
      rcases List.mem_cons.mp hp with h | h
      · simp [h]
      · exact ih p h
    · rw [if_neg hc] at hp
      cases hs : splitChar sep cs with
      | nil => exact absurd hs (splitChar_ne_nil sep cs)
      | cons q qs =>
        rw [hs] at hp
        rcases List.mem_cons.mp hp with h | h
        · subst h
          intro hmem
          rcases List.mem_cons.mp hmem with h | h
          · exact hc h.symm
          · exact ih q (hs ▸ List.mem_cons_self q qs) h
        · exact ih p (hs ▸ List.mem_cons_of_mem q h)

theorem splitChar_of_notMem (sep : Char) (l : List Char) (h : sep ∉ l) :
    splitChar sep l = [l] := by
  induction l with
  | nil => simp [splitChar]
  | cons c cs ih =>
    simp only [List.mem_cons, not_or] at h
    have hcs := ih h.2
    have hne : ¬c = sep := fun hc => h.1 hc.symm
    simp [splitChar, hne, hcs]

theorem splitChar_append_sep (sep : Char) (l1 l2 : List Char) (h : sep ∉ l1) :
    splitChar sep (l1 ++ sep :: l2) = l1 :: splitChar sep l2 := by
  induction l1 with
  | nil => simp [splitChar]
  | cons c cs ih =>
    simp only [List.mem_cons, not_or] at h
    have hcs := ih h.2
    have hne : ¬c = sep := fun hc => h.1 hc.symm
    simp [splitChar, hne, hcs]

theorem splitChar_two_of_mem (sep : Char) (l : List Char) (h : sep ∈ l) :
    ∃ p1 p2 rest, splitChar sep l = p1 :: p2 :: rest := by
  induction l with
  | nil => cases h
  | cons c cs ih =>
    by_cases hc : c = sep
    · refine ⟨[], ?_⟩
      have := splitChar_ne_nil sep cs
      cases hs : splitChar sep cs with
      | nil => exact absurd hs this
      | cons q qs => exact ⟨q, qs, by simp [splitChar, hc, hs]⟩
    · have hmem : sep ∈ cs := by
        rcases List.mem_cons.mp h with h' | h'
        · exact absurd h'.symm hc
        · exact h'
      obtain ⟨p1, p2, rest, hs⟩ := ih hmem
      exact ⟨c :: p1, p2, rest, by simp [splitChar, hc, hs]⟩

theorem string_data_append (a b : String) : (a ++ b).data = a.data ++ b.data := rfl

theorem display_data (i : SignatureId) :
    i.display.data = i.id.data ++ '-' :: i.number.data := by
  show ((i.id ++ "-") ++ i.number).data = _
  rw [string_data_append, string_data_append]
  simp

theorem dash_mem_display (i : SignatureId) : '-' ∈ i.display.data := by
  rw [display_data]
  exact List.mem_append_right _ (List.mem_cons_self _ _)

/-- When the raw id contains a `'-'`, the conversion succeeds and yields the
classification computed by `clipType`. -/
theorem toSig_of_dash (c : ClipboardItem) (h : '-' ∈ c.id.data) :
    ∃ i, c.toSig = some (i, clipType c) := by
  obtain ⟨p1, p2, rest, hs⟩ := splitChar_two_of_mem '-' c.id.data h
  exact ⟨⟨⟨p1⟩, ⟨p2⟩⟩, by simp [ClipboardItem.toSig, hs]⟩

/-- The derived components of a successful conversion never contain `'-'`. -/
theorem toSig_wf (c : ClipboardItem) (i : SignatureId) (t : SignatureType)
    (h : c.toSig = some (i, t)) : '-' ∉ i.id.data ∧ '-' ∉ i.number.data := by
  unfold ClipboardItem.toSig at h
  cases hs : splitChar '-' c.id.data with
  | nil => exact absurd hs (splitChar_ne_nil _ _)
  | cons p1 ps =>
    cases ps with
    | nil => rw [hs] at h; cases h
    | cons p2 rest =>
      rw [hs] at h
      have h1 : i = ⟨⟨p1⟩, ⟨p2⟩⟩ := by
        cases h
        rfl
      subst h1
      exact ⟨notMem_of_mem_splitChar '-' c.id.data p1 (hs ▸ List.mem_cons_self _ _),
        notMem_of_mem_splitChar '-' c.id.data p2
          (hs ▸ List.mem_cons_of_mem _ (List.mem_cons_self _ _))⟩

/-- A successful conversion always yields `clipType`. -/
theorem toSig_snd (c : ClipboardItem) (i : SignatureId) (t : SignatureType)
    (h : c.toSig = some (i, t)) : t = clipType c := by
  unfold ClipboardItem.toSig at h
  cases hs : splitChar '-' c.id.data with
  | nil => exact absurd hs (splitChar_ne_nil _ _)
  | cons p1 ps =>
    cases ps with
    | nil => rw [hs] at h; cases h
    | cons p2 rest =>
      rw [hs] at h
      cases h
      rfl

/-- Any candidate whose raw id is the rendered form of a dash-free
`SignatureId` converts back to exactly that id. -/
theorem toSig_of_display (d : ClipboardItem) (i : SignatureId)
    (h1 : '-' ∉ i.id.data) (h2 : '-' ∉ i.number.data)
    (h : d.id = i.display) : d.toSig = some (i, clipType d) := by
  have hdata : d.id.data = i.id.data ++ '-' :: i.number.data := by
    rw [h, display_data]
  have hs : splitChar '-' d.id.data = i.id.data :: [i.number.data] := by
    rw [hdata, splitChar_append_sep '-' _ _ h1, splitChar_of_notMem '-' _ h2]
  simp [ClipboardItem.toSig, hs]

/-! ### Helper lemmas about `mergeStep` -/

/-- The wildcard arm of `mergeStep` for the five named site variants. -/
theorem mergeStep_named (ex nw : SignatureType) (h : nw.isNamedSite = true) :
    mergeStep ex nw = if nw.has_name then nw else if ex.has_name then ex else nw := by
  cases nw with
  | Unknown => exact Bool.noConfusion h
  | Wormhole w => exact Bool.noConfusion h
  | Combat name => rfl
  | Ore name => rfl
  | Data name => rfl
  | Relic name => rfl
  | Gas name => rfl

theorem mergeStep_self (t : SignatureType) : mergeStep t t = t := by
  by_cases hsite : t.isNamedSite = true
  · by_cases hn : t.has_name = true <;> simp [mergeStep_named _ _ hsite, hn]
  · cases t with
    | Unknown => rfl
    | Wormhole w => rfl
    | Combat name => exact absurd rfl hsite
    | Ore name => exact absurd rfl hsite
    | Data name => exact absurd rfl hsite
    | Relic name => exact absurd rfl hsite
    | Gas name => exact absurd rfl hsite

theorem mergeStep_mergeStep (ex nw : SignatureType) :
    mergeStep (mergeStep ex nw) nw = mergeStep ex nw := by
  by_cases hsite : nw.isNamedSite = true
  · by_cases hnw : nw.has_name = true <;> by_cases hex : ex.has_name = true <;>
      simp [mergeStep_named _ _ hsite, hnw, hex]
  · cases nw with
    | Unknown => simp [mergeStep]
    | Wormhole w => cases ex <;> simp [mergeStep]
    | Combat name => exact absurd rfl hsite
    | Ore name => exact absurd rfl hsite
    | Data name => exact absurd rfl hsite
    | Relic name => exact absurd rfl hsite
    | Gas name => exact absurd rfl hsite

theorem mergeStep_has_name (ex nw : SignatureType) (h : ex.has_name = true) :
    (mergeStep ex nw).has_name = true := by
  by_cases hsite : nw.isNamedSite = true
  · by_cases hnw : nw.has_name = true <;> simp [mergeStep_named _ _ hsite, hnw, h]
  · cases nw with
    | Unknown => simpa [mergeStep] using h
    | Wormhole w => cases ex <;> simp [mergeStep, SignatureType.has_name]
    | Combat name => exact absurd rfl hsite
    | Ore name => exact absurd rfl hsite
    | Data name => exact absurd rfl hsite
    | Relic name => exact absurd rfl hsite
    | Gas name => exact absurd rfl hsite

/-- A nameless named-site proposal never changes a classification that
already has a name. -/
theorem mergeStep_keep_named (ex nw : SignatureType) (hex : ex.has_name = true)
    (hsite : nw.isNamedSite = true) (hnw : nw.has_name = false) :
    mergeStep ex nw = ex := by
  simp [mergeStep_named _ _ hsite, hnw, hex]

/-! ### Helper lemmas about pass 1 (`updateSignature`, `updateAll`) -/

theorem updateSignature_eq_none (nd : List ClipboardItem) (sig : Signature)
    (hf : nd.find? (matchesId sig) = none) : updateSignature nd sig = some sig := by
  unfold updateSignature
  rw [hf]

theorem updateSignature_eq_panic (nd : List ClipboardItem) (sig : Signature)
    (c : ClipboardItem) (hf : nd.find? (matchesId sig) = some c)
    (ht : c.toSig = none) : updateSignature nd sig = none := by
  unfold updateSignature
  rw [hf]
  simp only []
  rw [ht]

theorem updateSignature_eq_step (nd : List ClipboardItem) (sig : Signature)
    (c : ClipboardItem) (i : SignatureId) (t : SignatureType)
    (hf : nd.find? (matchesId sig) = some c) (ht : c.toSig = some (i, t)) :
    updateSignature nd sig =
      some { sig with signature_type := mergeStep sig.signature_type t } := by
  unfold updateSignature
  rw [hf]
  simp only []
  rw [ht]

theorem updateSignature_cases (nd : List ClipboardItem) (sig s' : Signature)
    (h : updateSignature nd sig = some s') :
    (nd.find? (matchesId sig) = none ∧ s' = sig) ∨
      ∃ c i t, nd.find? (matchesId sig) = some c ∧ c.toSig = some (i, t) ∧
        s' = { sig with signature_type := mergeStep sig.signature_type t } := by
  cases hf : nd.find? (matchesId sig) with
  | none =>
    rw [updateSignature_eq_none nd sig hf] at h
    exact Or.inl ⟨rfl, by cases h; rfl⟩
  | some c =>
    cases ht : c.toSig with
    | none =>
      rw [updateSignature_eq_panic nd sig c hf ht] at h
      cases h
    | some p =>
      obtain ⟨i, t⟩ := p
      rw [updateSignature_eq_step nd sig c i t hf ht] at h
      exact Or.inr ⟨c, i, t, rfl, ht, by cases h; rfl⟩

theorem updateSignature_identifier (nd : List ClipboardItem) (s s' : Signature)
    (h : updateSignature nd s = some s') : s'.identifier = s.identifier := by
  rcases updateSignature_cases nd s s' h with ⟨_, rfl⟩ | ⟨c, i, t, _, _, rfl⟩ <;> rfl

theorem updateSignature_has_name (nd : List ClipboardItem) (s s' : Signature)
    (h : updateSignature nd s = some s')
    (hn : s.signature_type.has_name = true) : s'.signature_type.has_name = true := by
  rcases updateSignature_cases nd s s' h with ⟨_, rfl⟩ | ⟨c, i, t, _, _, rfl⟩
  · exact hn
  · exact mergeStep_has_name _ _ hn

theorem updateAll_length (nd : List ClipboardItem) (L U : List Signature)
    (h : updateAll nd L = some U) : U.length = L.length := by
  induction L generalizing U with
  | nil => simp [updateAll] at h; simp [← h]
  | cons s rest ih =>
    unfold updateAll at h
    cases hu : updateSignature nd s with
    | none => rw [hu] at h; cases h
    | some s' =>
      rw [hu] at h
      cases hr : updateAll nd rest with
      | none => rw [hr] at h; cases h
      | some rest' =>
        rw [hr] at h
        cases h
        simp [ih rest' hr]

theorem updateAll_get? (nd : List ClipboardItem) (L U : List Signature)
    (h : updateAll nd L = some U) (i : Nat) :
    (L.get? i).bind (updateSignature nd) = U.get? i := by
  induction L generalizing U i with
  | nil =>
    simp [updateAll] at h
    subst h
    simp
  | cons s rest ih =>
    unfold updateAll at h
    cases hu : updateSignature nd s with
    | none => rw [hu] at h; cases h
    | some s' =>
      rw [hu] at h
      cases hr : updateAll nd rest with
      | none => rw [hr] at h; cases h
      | some rest' =>
        rw [hr] at h
        cases h
        cases i with
        | zero => simpa using hu
        | succ j => simpa using ih rest' hr j

theorem updateAll_map_identifier (nd : List ClipboardItem) (L U : List Signature)
    (h : updateAll nd L = some U) :
    U.map (·.identifier) = L.map (·.identifier) := by
  induction L generalizing U with
  | nil => simp [updateAll] at h; simp [← h]
  | cons s rest ih =>
    unfold updateAll at h
    cases hu : updateSignature nd s with
    | none => rw [hu] at h; cases h
    | some s' =>
      rw [hu] at h
      cases hr : updateAll nd rest with
      | none => rw [hr] at h; cases h
      | some rest' =>
        rw [hr] at h
        cases h
        simp [ih rest' hr, updateSignature_identifier nd s s' hu]

theorem updateAll_of_fixed (nd : List ClipboardItem) (L : List Signature)
    (h : ∀ s ∈ L, updateSignature nd s = some s) : updateAll nd L = some L := by
  induction L with
  | nil => rfl
  | cons s rest ih =>
    have hs := h s (List.mem_cons_self _ _)
    have hrest := ih (fun x hx => h x (List.mem_cons_of_mem _ hx))
    simp [updateAll, hs, hrest]

theorem updateAll_isSome (nd : List ClipboardItem)
    (hc : ∀ c ∈ nd, c.toSig.isSome = true) (L : List Signature) :
    ∃ U, updateAll nd L = some U := by
  induction L with
  | nil => exact ⟨[], rfl⟩
  | cons s rest ih =>
    obtain ⟨U, hU⟩ := ih
    have hs : ∃ s', updateSignature nd s = some s' := by
      cases hf : nd.find? (matchesId s) with
      | none => exact ⟨s, updateSignature_eq_none nd s hf⟩
      | some c =>
        have hmem := List.mem_of_find?_eq_some hf
        cases ht : c.toSig with
        | none => exact absurd (hc c hmem) (by simp [ht])
        | some p =>
          obtain ⟨i, t⟩ := p
          exact ⟨_, updateSignature_eq_step nd s c i t hf ht⟩
    obtain ⟨s', hs'⟩ := hs
    exact ⟨s' :: U, by simp [updateAll, hs', hU]⟩

/-! ### Helper lemmas about pass 2 (`appendNew`) -/

theorem appendNew_cons_panic (ids : List SignatureId) (acc : List Signature)
    (c : ClipboardItem) (rest : List ClipboardItem) (ht : c.toSig = none) :
    appendNew ids acc (c :: rest) = none := by
  unfold appendNew
  rw [ht]

theorem appendNew_cons_mem (ids : List SignatureId) (acc : List Signature)
    (c : ClipboardItem) (rest : List ClipboardItem) (i : SignatureId)
    (t : SignatureType) (ht : c.toSig = some (i, t)) (hmem : i ∈ ids) :
    appendNew ids acc (c :: rest) = appendNew ids acc rest := by
  conv_lhs => unfold appendNew
  rw [ht]
  simp only []
  rw [if_pos hmem]

theorem appendNew_cons_new (ids : List SignatureId) (acc : List Signature)
    (c : ClipboardItem) (rest : List ClipboardItem) (i : SignatureId)
    (t : SignatureType) (ht : c.toSig = some (i, t)) (hmem : i ∉ ids) :
    appendNew ids acc (c :: rest) = appendNew ids (acc ++ [⟨i, t⟩]) rest := by
  conv_lhs => unfold appendNew
  rw [ht]
  simp only []
  rw [if_neg hmem]

theorem appendNew_converts (ids : List SignatureId) (acc : List Signature)
    (C : List ClipboardItem) (r : List Signature)
    (h : appendNew ids acc C = some r) : ∀ c ∈ C, c.toSig.isSome = true := by
  induction C generalizing acc with
  | nil => simp
  | cons c rest ih =>
    cases ht : c.toSig with
    | none =>
      rw [appendNew_cons_panic ids acc c rest ht] at h
      cases h
    | some p =>
      obtain ⟨i, t⟩ := p
      intro d hd
      rcases List.mem_cons.mp hd with h' | h'
      · simp [h', ht]
      · by_cases hmem : i ∈ ids
        · rw [appendNew_cons_mem ids acc c rest i t ht hmem] at h
          exact ih acc h d h'
        · rw [appendNew_cons_new ids acc c rest i t ht hmem] at h
          exact ih _ h d h'

theorem appendNew_eq (ids : List SignatureId) (C : List ClipboardItem)
    (hc : ∀ c ∈ C, c.toSig.isSome = true) (acc : List Signature) :
    appendNew ids acc C = some (acc ++ C.filterMap (newEntry ids)) := by
  induction C generalizing acc with
  | nil => simp [appendNew]
  | cons c rest ih =>
    have hcs : c.toSig.isSome = true := hc c (List.mem_cons_self _ _)
    have hrest : ∀ d ∈ rest, d.toSig.isSome = true :=
      fun d hd => hc d (List.mem_cons_of_mem _ hd)
    cases ht : c.toSig with
    | none => rw [ht] at hcs; cases hcs
    | some p =>
      obtain ⟨i, t⟩ := p
      by_cases hmem : i ∈ ids
      · calc appendNew ids acc (c :: rest)
            = appendNew ids acc rest := appendNew_cons_mem ids acc c rest i t ht hmem
          _ = some (acc ++ rest.filterMap (newEntry ids)) := ih hrest acc
          _ = some (acc ++ (c :: rest).filterMap (newEntry ids)) := by
              simp [List.filterMap_cons, newEntry, ht, hmem]
      · calc appendNew ids acc (c :: rest)
            = appendNew ids (acc ++ [⟨i, t⟩]) rest :=
              appendNew_cons_new ids acc c rest i t ht hmem
          _ = some ((acc ++ [⟨i, t⟩]) ++ rest.filterMap (newEntry ids)) :=
              ih hrest (acc ++ [⟨i, t⟩])
          _ = some (acc ++ (c :: rest).filterMap (newEntry ids)) := by
              simp [List.filterMap_cons, newEntry, ht, hmem]

theorem appendNew_prefix (ids : List SignatureId) (acc : List Signature)
    (C : List ClipboardItem) (r : List Signature)
    (h : appendNew ids acc C = some r) : ∃ tail, r = acc ++ tail := by
  have hc := appendNew_converts ids acc C r h
  rw [appendNew_eq ids C hc acc] at h
  exact ⟨C.filterMap (newEntry ids), by cases h; rfl⟩

theorem appendNew_of_all_mem (ids : List SignatureId) (C : List ClipboardItem)
    (h : ∀ c ∈ C, ∃ p, c.toSig = some p ∧ p.1 ∈ ids) (acc : List Signature) :
    appendNew ids acc C = some acc := by
  induction C generalizing acc with
  | nil => rfl
  | cons c rest ih =>
    obtain ⟨p, hp, hmem⟩ := h c (List.mem_cons_self _ _)
    obtain ⟨i, t⟩ := p
    have hrest := ih (fun d hd => h d (List.mem_cons_of_mem _ hd))
    rw [appendNew_cons_mem ids acc c rest i t hp hmem]
    exact hrest acc

/-! ### Generic list helpers and `mergeIn` destructuring -/

theorem get?_append_of_get? {α : Type} (l1 l2 : List α) (i : Nat) (a : α)
    (h : l1.get? i = some a) : (l1 ++ l2).get? i = some a := by
  induction l1 generalizing i with
  | nil => simp at h
  | cons x xs ih =>
    cases i with
    | zero => simpa using h
    | succ j => simpa using ih j (by simpa using h)

theorem pairwise_ne_inj {α β : Type} (f : α → β) :
    ∀ (l : List α), l.Pairwise (fun a b => f a ≠ f b) →
      ∀ a ∈ l, ∀ b ∈ l, f a = f b → a = b := by
  intro l
  induction l with
  | nil => intro _ a ha; cases ha
  | cons x xs ih =>
    intro h a ha b hb hf
    rcases List.pairwise_cons.mp h with ⟨hx, hxs⟩
    rcases List.mem_cons.mp ha with rfl | ha'
    · rcases List.mem_cons.mp hb with rfl | hb'
      · rfl
      · exact absurd hf (hx b hb')
    · rcases List.mem_cons.mp hb with rfl | hb'
      · exact absurd hf.symm (hx a ha')
      · exact ih hxs a ha' b hb' hf

theorem mergeIn_eq (L : List Signature) (C : List ClipboardItem) (U : List Signature)
    (hU : updateAll C L = some U) :
    mergeIn L C = appendNew (L.map (·.identifier)) U C := by
  unfold mergeIn
  rw [hU]

theorem mergeIn_destruct (L : List Signature) (C : List ClipboardItem)
    (L' : List Signature) (h : mergeIn L C = some L') :
    ∃ U, updateAll C L = some U ∧
      appendNew (L.map (·.identifier)) U C = some L' := by
  cases hU : updateAll C L with
  | none =>
    unfold mergeIn at h
    rw [hU] at h
    cases h
  | some U =>
    rw [mergeIn_eq L C U hU] at h
    exact ⟨U, rfl, h⟩

theorem updateAll_mem_rev (nd : List ClipboardItem) (L U : List Signature)
    (h : updateAll nd L = some U) (s : Signature) (hs : s ∈ U) :
    ∃ sig ∈ L, updateSignature nd sig = some s := by
  obtain ⟨j, hj⟩ := List.get?_of_mem hs
  have hb := updateAll_get? nd L U h j
  cases hLj : L.get? j with
  | none =>
    rw [hLj, hj] at hb
    cases hb
  | some sig =>
    rw [hLj, hj] at hb
    exact ⟨sig, List.get?_mem hLj, hb⟩

theorem updateAll_get?_of (nd : List ClipboardItem) (L U : List Signature)
    (h : updateAll nd L = some U) (i : Nat) (s : Signature)
    (hs : L.get? i = some s) : U.get? i = updateSignature nd s := by
  have hb := updateAll_get? nd L U h i
  rw [hs] at hb
  exact hb.symm

/-- Common ending of the preservation claims: when pass 1 leaves the `i`-th
signature unchanged, the merged list still has it at position `i`. -/
theorem mergeIn_get?_of_fixed (L : List Signature) (C : List ClipboardItem)
    (L' : List Signature) (i : Nat) (sig : Signature)
    (hi : L.get? i = some sig) (hupd : updateSignature C sig = some sig)
    (hmerge : mergeIn L C = some L') : L'.get? i = some sig := by
  obtain ⟨U, hU, hA⟩ := mergeIn_destruct L C L' hmerge
  have hUi : U.get? i = some sig := by
    rw [updateAll_get?_of C L U hU i sig hi, hupd]
  obtain ⟨tail, rfl⟩ := appendNew_prefix _ _ _ _ hA
  exact get?_append_of_get? U tail i sig hUi

theorem mergeStep_unknown (ex : SignatureType) : mergeStep ex SignatureType.Unknown = ex := rfl

/-- A candidate carrying the category label of an existing named classification
and an empty name proposes either `Unknown` (for `Ore`, which the conversion
does not recognise) or the nameless variant, so the existing classification is
kept. -/
theorem mergeStep_clipType_nameless (c : ClipboardItem) (t : SignatureType)
    (hsite : t.isNamedSite = true) (hname : t.has_name = true)
    (hcat : c.sig_type = t.categoryLabel) (hempty : c.sig_name = "") :
    mergeStep t (clipType c) = t := by
  have hnone : clipName c = none := by simp [clipName, hempty]
  cases t with
  | Unknown => exact Bool.noConfusion hsite
  | Wormhole w => exact Bool.noConfusion hsite
  | Combat name =>
    have hct : clipType c = SignatureType.Combat none := by
      simp [clipType, hcat, SignatureType.categoryLabel, hnone]
    rw [hct]
    exact mergeStep_keep_named _ _ hname rfl rfl
  | Ore name =>
    have hct : clipType c = SignatureType.Unknown := by
      simp [clipType, hcat, SignatureType.categoryLabel]
    rw [hct, mergeStep_unknown]
  | Data name =>
    have hct : clipType c = SignatureType.Data none := by
      simp [clipType, hcat, SignatureType.categoryLabel, hnone]
    rw [hct]
    exact mergeStep_keep_named _ _ hname rfl rfl
  | Relic name =>
    have hct : clipType c = SignatureType.Relic none := by
      simp [clipType, hcat, SignatureType.categoryLabel, hnone]
    rw [hct]
    exact mergeStep_keep_named _ _ hname rfl rfl
  | Gas name =>
    have hct : clipType c = SignatureType.Gas none := by
      simp [clipType, hcat, SignatureType.categoryLabel, hnone]
    rw [hct]
    exact mergeStep_keep_named _ _ hname rfl rfl

/-! ### Claim C2 (amended): a populated name survives a nameless rescan -/

/-- C2 (amended): if the `i`-th signature of `L` is a named site variant with
a populated name and the first candidate of `C` whose raw id matches its
rendered identifier carries the same category and an empty name, then the
merge leaves that signature — classification, name and all — unchanged at
position `i`. -/
theorem merge_retains_populated_name (L : List Signature) (C : List ClipboardItem)
    (L' : List Signature) (i : Nat) (sig : Signature) (c : ClipboardItem)
    (hi : L.get? i = some sig)
    (hsite : sig.signature_type.isNamedSite = true)
    (hname : sig.signature_type.has_name = true)
    (hfind : C.find? (matchesId sig) = some c)
    (hcat : c.sig_type = sig.signature_type.categoryLabel)
    (hempty : c.sig_name = "")
    (hmerge : mergeIn L C = some L') :
    L'.get? i = some sig := by
  have hdisp : c.id = sig.identifier.display := by
    have := List.find?_some hfind
    simpa [matchesId] using this
  have hdash : '-' ∈ c.id.data := hdisp ▸ dash_mem_display _
  obtain ⟨i0, htos⟩ := toSig_of_dash c hdash
  have hupd : updateSignature C sig = some sig := by
    rw [updateSignature_eq_step C sig c i0 (clipType c) hfind htos,
      mergeStep_clipType_nameless c sig.signature_type hsite hname hcat hempty]
  exact mergeIn_get?_of_fixed L C L' i sig hi hupd hmerge

/-- C2 counterexample: the claim as stated (an empty-name candidate of the
same category merely *contained* in the batch) is false — an earlier
candidate with the same id text and a name overwrites the existing name. -/
theorem merge_retains_populated_name_cx :
    mergeIn [⟨⟨"ABC", "123"⟩, .Relic (some "Keep")⟩]
        [⟨"ABC-123", "Relic", "New"⟩, ⟨"ABC-123", "Relic", ""⟩] =
      some [⟨⟨"ABC", "123"⟩, .Relic (some "New")⟩] ∧
    SignatureType.Relic (some "New") ≠ SignatureType.Relic (some "Keep") := by
  constructor
  · decide
  · decide

/-- C2 witness. -/
theorem merge_retains_populated_name_witness :
    mergeIn [⟨⟨"ABC", "123"⟩, .Relic (some "Keep")⟩] [⟨"ABC-123", "Relic", ""⟩] =
      some [⟨⟨"ABC", "123"⟩, .Relic (some "Keep")⟩] ∧
    ([⟨⟨"ABC", "123"⟩, .Relic (some "Keep")⟩] : List Signature).get? 0 =
      some ⟨⟨"ABC", "123"⟩, .Relic (some "Keep")⟩ :=
  ⟨by decide, merge_retains_populated_name
    [⟨⟨"ABC", "123"⟩, .Relic (some "Keep")⟩] [⟨"ABC-123", "Relic", ""⟩]
    [⟨⟨"ABC", "123"⟩, .Relic (some "Keep")⟩] 0
    ⟨⟨"ABC", "123"⟩, .Relic (some "Keep")⟩ ⟨"ABC-123", "Relic", ""⟩
    (by decide) (by decide) (by decide) (by decide) (by decide) (by decide) (by decide)⟩

/-! ### Claim C3 (amended): an existing wormhole survives a wormhole rescan -/

/-- C3 (amended): if the `i`-th signature of `L` is classified `Wormhole`
with detail `w` and the first candidate of `C` whose raw id matches its
rendered identifier has category `"Wormhole"`, the merge leaves the signature
unchanged at position `i` — in particular the `WormholeDetail` is exactly the
original `w`. -/
theorem merge_preserves_wormhole_detail (L : List Signature) (C : List ClipboardItem)
    (L' : List Signature) (i : Nat) (sig : Signature) (w : SignatureWormhole)
    (c : ClipboardItem)
    (hi : L.get? i = some sig)
    (hw : sig.signature_type = SignatureType.Wormhole w)
    (hfind : C.find? (matchesId sig) = some c)
    (hcat : c.sig_type = "Wormhole")
    (hmerge : mergeIn L C = some L') :
    L'.get? i = some sig ∧ sig.signature_type = SignatureType.Wormhole w := by
  have hdisp : c.id = sig.identifier.display := by
    have := List.find?_some hfind
    simpa [matchesId] using this
  have hdash : '-' ∈ c.id.data := hdisp ▸ dash_mem_display _
  obtain ⟨i0, htos⟩ := toSig_of_dash c hdash
  have hct : clipType c = SignatureType.Wormhole SignatureWormhole.default := by
    simp [clipType, hcat]
  have hstep : mergeStep sig.signature_type (clipType c) = sig.signature_type := by
    rw [hct, hw]
    rfl
  have hupd : updateSignature C sig = some sig := by
    rw [updateSignature_eq_step C sig c i0 (clipType c) hfind htos, hstep]
  exact ⟨mergeIn_get?_of_fixed L C L' i sig hi hupd hmerge, hw⟩

/-- C3 counterexample: the claim as stated (a `"Wormhole"` candidate merely
*contained* in the batch) is false — an earlier named candidate with the same
id text replaces the wormhole classification, detail and all. -/
theorem merge_preserves_wormhole_detail_cx :
    mergeIn [⟨⟨"ABC", "123"⟩,
        .Wormhole ⟨some "A239", none, WormholeLife.EndOfLife, WormholeMass.Stable⟩⟩]
        [⟨"ABC-123", "Relic", "X"⟩, ⟨"ABC-123", "Wormhole", ""⟩] =
      some [⟨⟨"ABC", "123"⟩, .Relic (some "X")⟩] ∧
    SignatureType.Relic (some "X") ≠
      SignatureType.Wormhole ⟨some "A239", none, WormholeLife.EndOfLife, WormholeMass.Stable⟩ := by
  constructor
  · decide
  · decide

/-- C3 witness. -/
theorem merge_preserves_wormhole_detail_witness :
    mergeIn [⟨⟨"ABC", "123"⟩,
        .Wormhole ⟨some "A239", none, WormholeLife.EndOfLife, WormholeMass.Stable⟩⟩]
        [⟨"ABC-123", "Wormhole", ""⟩] =
      some [⟨⟨"ABC", "123"⟩,
        .Wormhole ⟨some "A239", none, WormholeLife.EndOfLife, WormholeMass.Stable⟩⟩] ∧
    (([⟨⟨"ABC", "123"⟩,
        .Wormhole ⟨some "A239", none, WormholeLife.EndOfLife, WormholeMass.Stable⟩⟩] :
          List Signature).get? 0 =
      some ⟨⟨"ABC", "123"⟩,
        .Wormhole ⟨some "A239", none, WormholeLife.EndOfLife, WormholeMass.Stable⟩⟩ ∧
      SignatureType.Wormhole
          (⟨some "A239", none, WormholeLife.EndOfLife, WormholeMass.Stable⟩ :
            SignatureWormhole) =
        SignatureType.Wormhole ⟨some "A239", none, WormholeLife.EndOfLife, WormholeMass.Stable⟩) :=
  ⟨by decide, merge_preserves_wormhole_detail
    [⟨⟨"ABC", "123"⟩,
      .Wormhole ⟨some "A239", none, WormholeLife.EndOfLife, WormholeMass.Stable⟩⟩]
    [⟨"ABC-123", "Wormhole", ""⟩]
    [⟨⟨"ABC", "123"⟩,
      .Wormhole ⟨some "A239", none, WormholeLife.EndOfLife, WormholeMass.Stable⟩⟩] 0
    ⟨⟨"ABC", "123"⟩,
      .Wormhole ⟨some "A239", none, WormholeLife.EndOfLife, WormholeMass.Stable⟩⟩
    ⟨some "A239", none, WormholeLife.EndOfLife, WormholeMass.Stable⟩
    ⟨"ABC-123", "Wormhole", ""⟩
    (by decide) (by decide) (by decide) (by decide) (by decide)⟩

/-! ### Claim C4 (amended): totality of parse and merge -/

/-- C4 (amended): `parse_paste` is total by construction, but the merge only
completes without panicking exactly when every candidate's raw id converts,
i.e. contains a `'-'` separator; a candidate without one makes the
`unwrap` in the conversion panic. -/
theorem mergeIn_isSome_iff (L : List Signature) (C : List ClipboardItem) :
    (mergeIn L C).isSome = true ↔ ∀ c ∈ C, c.toSig.isSome = true := by
  constructor
  · intro h
    cases hm : mergeIn L C with
    | none => rw [hm] at h; cases h
    | some L' =>
      obtain ⟨U, hU, hA⟩ := mergeIn_destruct L C L' hm
      exact appendNew_converts _ _ _ _ hA
  · intro h
    obtain ⟨U, hU⟩ := updateAll_isSome C h L
    rw [mergeIn_eq L C U hU, appendNew_eq _ _ h U]
    rfl

/-- C4 counterexample: merging a candidate whose identifier text contains no
`'-'` separator does not complete with degenerate output — it panics
(modelled as `none`). -/
theorem mergeIn_panics_on_dashless_id_cx :
    mergeIn [] [⟨"ABC123", "", ""⟩] = none := by
  decide

/-- C4 witness. -/
theorem mergeIn_isSome_iff_witness :
    (mergeIn [] [⟨"ABC-123", "Relic", "X"⟩]).isSome = true :=
  (mergeIn_isSome_iff [] [⟨"ABC-123", "Relic", "X"⟩]).mpr (by decide)

/-! ### Claim C5 (corrected): the end-to-end scenario -/

/-- C5 counterexample: with the candidate id text `"ABC123"` exactly as the
spec writes it (no separator), the merge panics instead of producing the
named relic — the claimed result is not produced. -/
theorem end_to_end_cx :
    mergeIn [⟨⟨"ABC", "123"⟩, .Relic none⟩] [⟨"ABC123", "Relic", "Foobar"⟩] = none ∧
    mergeIn [⟨⟨"ABC", "123"⟩, .Relic none⟩] [⟨"ABC123", "Relic", "Foobar"⟩] ≠
      some [⟨⟨"ABC", "123"⟩, .Relic (some "Foobar")⟩] := by
  constructor
  · decide
  · decide

/-- C5 (amended): with the dash-separated candidate id `"ABC-123"` (the form
the repository's own tests use), merging the single candidate
`("ABC-123", "Relic", "Foobar")` into `[Signature("ABC","123", Relic(None))]`
yields exactly `[Signature("ABC","123", Relic(Some "Foobar"))]`. -/
theorem end_to_end_dashed :
    mergeIn [⟨⟨"ABC", "123"⟩, .Relic none⟩] [⟨"ABC-123", "Relic", "Foobar"⟩] =
      some [⟨⟨"ABC", "123"⟩, .Relic (some "Foobar")⟩] := by
  decide

/-! ### Claim C6 (amended): appending an unseen candidate -/

/-- C6 (amended): merging a single candidate whose raw id text matches no
existing rendered identifier *and* whose derived `SignatureId` (the first two
`'-'`-separated components) is not an existing identifier appends exactly one
new signature built from the candidate, leaving every pre-existing entry
unchanged in value, count and order; the derived classification is `Unknown`
when the category is empty. -/
theorem merge_appends_unseen (L : List Signature) (c : ClipboardItem)
    (nid : SignatureId) (nty : SignatureType)
    (hconv : c.toSig = some (nid, nty))
    (hnew : nid ∉ L.map (·.identifier))
    (hnomatch : ∀ sig ∈ L, c.id ≠ sig.identifier.display) :
    mergeIn L [c] = some (L ++ [⟨nid, nty⟩]) ∧
      (c.sig_type = "" → nty = SignatureType.Unknown) := by
  constructor
  · have hupd : ∀ s ∈ L, updateSignature [c] s = some s := by
      intro s hs
      have hpc : matchesId s c = false := by
        simp [matchesId, hnomatch s hs]
      have hf : List.find? (matchesId s) [c] = none := by
        simp [List.find?, hpc]
      exact updateSignature_eq_none [c] s hf
    have hU := updateAll_of_fixed [c] L hupd
    rw [mergeIn_eq L [c] L hU,
      appendNew_cons_new (L.map (·.identifier)) L c [] nid nty hconv hnew]
    rfl
  · intro hempty
    rw [toSig_snd c nid nty hconv]
    simp [clipType, hempty]

/-- C6 counterexample: the claim as stated (non-matching identifier *text*)
is false — a candidate id text `"ABC-123-x"` matches no rendered identifier,
yet nothing is appended because its derived id `ABC-123` already exists. -/
theorem merge_appends_unseen_cx :
    mergeIn [⟨⟨"ABC", "123"⟩, .Unknown⟩] [⟨"ABC-123-x", "Relic", "X"⟩] =
      some [⟨⟨"ABC", "123"⟩, .Unknown⟩] ∧
    "ABC-123-x" ≠ SignatureId.display ⟨"ABC", "123"⟩ := by
  constructor
  · decide
  · decide

/-- C6 witness. -/
theorem merge_appends_unseen_witness :
    mergeIn [⟨⟨"ABC", "123"⟩, .Unknown⟩] [⟨"DEF-456", "", ""⟩] =
      some ([⟨⟨"ABC", "123"⟩, .Unknown⟩] ++ [⟨⟨"DEF", "456"⟩, .Unknown⟩]) ∧
    ((⟨"DEF-456", "", ""⟩ : ClipboardItem).sig_type = "" →
      SignatureType.Unknown = SignatureType.Unknown) :=
  merge_appends_unseen [⟨⟨"ABC", "123"⟩, .Unknown⟩] ⟨"DEF-456", "", ""⟩
    ⟨"DEF", "456"⟩ SignatureType.Unknown (by decide) (by decide)
    (by decide)

/-! ### Claim C7 (confirmed): no deletion, no name regression -/

/-- C7: whenever the merge completes, every signature of `L` is still present
at its position with its identifier intact, and a signature whose
classification had a name never ends up with a nameless classification. -/
theorem merge_no_delete_no_regress (L : List Signature) (C : List ClipboardItem)
    (L' : List Signature) (h : mergeIn L C = some L') :
    ∀ i s, L.get? i = some s → ∃ s', L'.get? i = some s' ∧
      s'.identifier = s.identifier ∧
      (s.signature_type.has_name = true → s'.signature_type.has_name = true) := by
  obtain ⟨U, hU, hA⟩ := mergeIn_destruct L C L' h
  intro i s hs
  have hUi := updateAll_get?_of C L U hU i s hs
  cases hupd : updateSignature C s with
  | none =>
    rw [hupd] at hUi
    have hlen := updateAll_length C L U hU
    have hlt : i < U.length := by
      rw [hlen]
      by_contra hge
      push_neg at hge
      rw [List.get?_eq_none.mpr hge] at hs
      cases hs
    rw [List.get?_eq_none] at hUi
    omega
  | some s' =>
    rw [hupd] at hUi
    obtain ⟨tail, rfl⟩ := appendNew_prefix _ _ _ _ hA
    exact ⟨s', get?_append_of_get? U tail i s' hUi,
      updateSignature_identifier C s s' hupd,
      updateSignature_has_name C s s' hupd⟩

/-- C7 witness. -/
theorem merge_no_delete_no_regress_witness :
    ∃ s', ([⟨⟨"ABC", "123"⟩, .Relic (some "Foo")⟩,
        ⟨⟨"DEF", "456"⟩, .Wormhole SignatureWormhole.default⟩] : List Signature).get? 0 =
        some s' ∧
      s'.identifier = (⟨⟨"ABC", "123"⟩, .Relic (some "Foo")⟩ : Signature).identifier ∧
      ((⟨⟨"ABC", "123"⟩, .Relic (some "Foo")⟩ : Signature).signature_type.has_name = true →
        s'.signature_type.has_name = true) :=
  merge_no_delete_no_regress
    [⟨⟨"ABC", "123"⟩, .Relic (some "Foo")⟩]
    [⟨"DEF-456", "Wormhole", ""⟩]
    [⟨⟨"ABC", "123"⟩, .Relic (some "Foo")⟩,
      ⟨⟨"DEF", "456"⟩, .Wormhole SignatureWormhole.default⟩]
    (by decide) 0 ⟨⟨"ABC", "123"⟩, .Relic (some "Foo")⟩ (by decide)

/-! ### Claim C8 (confirmed): parser category mapping -/

/-- C8: for any pasted line whose tab fields (after dropping the first two)
start with `p0`: `"Wormhole"` produces a candidate with category `"Wormhole"`
and an empty name (the line's own name field is discarded); each of the four
`" Site"` categories produces the word with `" Site"` removed and the next
field (or `""`) as name; any other value — including the empty string —
produces a candidate with empty category and empty name. -/
theorem parse_category_mapping (line p0 : String) (rest : List String)
    (h : lineParts line = p0 :: rest) :
    (p0 = "Wormhole" →
      parseLine line = some ⟨⟨line.data.take 7⟩, "Wormhole", ""⟩) ∧
    (p0 = "Gas Site" →
      parseLine line = some ⟨⟨line.data.take 7⟩, "Gas", rest.headD ""⟩) ∧
    (p0 = "Relic Site" →
      parseLine line = some ⟨⟨line.data.take 7⟩, "Relic", rest.headD ""⟩) ∧
    (p0 = "Data Site" →
      parseLine line = some ⟨⟨line.data.take 7⟩, "Data", rest.headD ""⟩) ∧
    (p0 = "Combat Site" →
      parseLine line = some ⟨⟨line.data.take 7⟩, "Combat", rest.headD ""⟩) ∧
    (p0 ≠ "Wormhole" → p0 ≠ "Gas Site" → p0 ≠ "Relic Site" → p0 ≠ "Data Site" →
      p0 ≠ "Combat Site" →
      parseLine line = some ⟨⟨line.data.take 7⟩, "", ""⟩) := by
  refine ⟨?_, ?_, ?_, ?_, ?_, ?_⟩
  · intro hp
    subst hp
    simp [parseLine, h]
  · intro hp
    subst hp
    have hr : replaceStr "Gas Site" " Site" "" = "Gas" := by decide
    simp [parseLine, h, hr]
  · intro hp
    subst hp
    have hr : replaceStr "Relic Site" " Site" "" = "Relic" := by decide
    simp [parseLine, h, hr]
  · intro hp
    subst hp
    have hr : replaceStr "Data Site" " Site" "" = "Data" := by decide
    simp [parseLine, h, hr]
  · intro hp
    subst hp
    have hr : replaceStr "Combat Site" " Site" "" = "Combat" := by decide
    simp [parseLine, h, hr]
  · intro h1 h2 h3 h4 h5
    simp [parseLine, h, h1, h2, h3, h4, h5]

/-- C8 witness. -/
theorem parse_category_mapping_witness :
    parseLine "IDX-123\tCosmic Signature\tRelic Site\tRuined Temple\t100.0%\t5 AU" =
      some ⟨⟨("IDX-123\tCosmic Signature\tRelic Site\tRuined Temple\t100.0%\t5 AU" :
        String).data.take 7⟩, "Relic",
        (["Ruined Temple", "100.0%", "5 AU"] : List String).headD ""⟩ :=
  (parse_category_mapping "IDX-123\tCosmic Signature\tRelic Site\tRuined Temple\t100.0%\t5 AU"
    "Relic Site" ["Ruined Temple", "100.0%", "5 AU"] (by decide)).2.2.1 rfl

/-! ### Claim C9 (confirmed): merge with no selected system is a no-op -/

/-- C9: when no system is selected, `merge_in` changes nothing — the whole
session state (in particular the per-system mapping) is returned unchanged. -/
theorem merge_in_no_system (app : App) (new_data : List ClipboardItem)
    (h : app.current_system = none) : app.merge_in new_data = some app := by
  unfold App.merge_in
  rw [h]

/-- C9 witness. -/
theorem merge_in_no_system_witness :
    App.merge_in ⟨none, fun _ => none, 0, ViewMode.Normal⟩ [⟨"ABC-123", "Relic", "X"⟩] =
      some ⟨none, fun _ => none, 0, ViewMode.Normal⟩ :=
  merge_in_no_system ⟨none, fun _ => none, 0, ViewMode.Normal⟩
    [⟨"ABC-123", "Relic", "X"⟩] rfl

/-! ### Claim C10 (confirmed): merge inserts the selected system -/

/-- C10: when the selected system has no entry in the mapping yet, any
successful merge leaves the mapping with an entry for it, and merging the
empty batch specifically installs the empty list — so the mapping does
change even for an empty merge. -/
theorem merge_in_inserts_new_system (app : App) (s : String)
    (h1 : app.current_system = some s) (h2 : app.system_data s = none) :
    (∀ new_data app', app.merge_in new_data = some app' →
      (app'.system_data s).isSome = true) ∧
    (∃ app', app.merge_in [] = some app' ∧ app'.system_data s = some [] ∧
      app'.system_data s ≠ app.system_data s) := by
  constructor
  · intro new_data app' h
    unfold App.merge_in at h
    rw [h1] at h
    simp only [] at h
    cases hm : mergeIn ((app.system_data s).getD []) new_data with
    | none => rw [hm] at h; cases h
    | some merged =>
      rw [hm] at h
      cases h
      simp
  · refine ⟨{ app with system_data := fun k => if k = s then some [] else app.system_data k },
      ?_, by simp, by simp [h2]⟩
    unfold App.merge_in
    rw [h1]
    simp only []
    rw [h2]
    rfl

/-- C10 witness. -/
theorem merge_in_inserts_new_system_witness :
    ∃ app', App.merge_in ⟨some "Thera", fun _ => none, 0, ViewMode.Normal⟩ [] = some app' ∧
      app'.system_data "Thera" = some [] ∧
      app'.system_data "Thera" ≠
        (⟨some "Thera", fun _ => none, 0, ViewMode.Normal⟩ : App).system_data "Thera" :=
  (merge_in_inserts_new_system ⟨some "Thera", fun _ => none, 0, ViewMode.Normal⟩
    "Thera" rfl rfl).2

/-! ### Claim C1 (amended): idempotence under distinct derived ids -/

/-- C1 counterexample: idempotence fails when two candidates share the same
id text — pass 2 checks against the id set captured *before* any append, so
both get appended, and the second run then rewrites the duplicate. -/
theorem merge_idempotent_cx :
    mergeIn [] [⟨"ABC-123", "Relic", "X"⟩, ⟨"ABC-123", "Data", ""⟩] =
      some [⟨⟨"ABC", "123"⟩, .Relic (some "X")⟩, ⟨⟨"ABC", "123"⟩, .Data none⟩] ∧
    mergeIn [⟨⟨"ABC", "123"⟩, .Relic (some "X")⟩, ⟨⟨"ABC", "123"⟩, .Data none⟩]
        [⟨"ABC-123", "Relic", "X"⟩, ⟨"ABC-123", "Data", ""⟩] =
      some [⟨⟨"ABC", "123"⟩, .Relic (some "X")⟩, ⟨⟨"ABC", "123"⟩, .Relic (some "X")⟩] ∧
    (some [⟨⟨"ABC", "123"⟩, .Relic (some "X")⟩, ⟨⟨"ABC", "123"⟩, .Relic (some "X")⟩] :
        Option (List Signature)) ≠
      some [⟨⟨"ABC", "123"⟩, .Relic (some "X")⟩, ⟨⟨"ABC", "123"⟩, .Data none⟩] := by
  refine ⟨by decide, by decide, by decide⟩

/-- C1 (amended): the merge is idempotent provided no two candidates of the
batch derive the same `SignatureId`: if `merge(L, C)` completes with result
`L'`, running the merge again with the same batch returns `L'` unchanged. -/
theorem merge_idempotent (L : List Signature) (C : List ClipboardItem)
    (L' : List Signature)
    (hdist : C.Pairwise (fun a b => a.toSig.map Prod.fst ≠ b.toSig.map Prod.fst))
    (hmerge : mergeIn L C = some L') :
    mergeIn L' C = some L' := by
  obtain ⟨U, hU, hA⟩ := mergeIn_destruct L C L' hmerge
  have hconv : ∀ c ∈ C, c.toSig.isSome = true := appendNew_converts _ _ _ _ hA
  have hL' : L' = U ++ C.filterMap (newEntry (L.map (·.identifier))) := by
    rw [appendNew_eq _ _ hconv U] at hA
    exact (Option.some.inj hA).symm
  have hfix : ∀ s ∈ L', updateSignature C s = some s := by
    intro s hsL'
    rw [hL'] at hsL'
    rcases List.mem_append.mp hsL' with hsU | hsNew
    · -- an entry that went through pass 1
      obtain ⟨sig, hsigL, hsig⟩ := updateAll_mem_rev C L U hU s hsU
      rcases updateSignature_cases C sig s hsig with ⟨hfnone, rfl⟩ | ⟨c, i0, t, hff, htos, rfl⟩
      · exact updateSignature_eq_none C s hfnone
      · have hff' : C.find? (matchesId
            { sig with signature_type := mergeStep sig.signature_type t }) = some c := hff
        rw [updateSignature_eq_step C _ c i0 t hff' htos, mergeStep_mergeStep]
    · -- an entry appended by pass 2
      obtain ⟨c, hcC, hnc⟩ := List.mem_filterMap.mp hsNew
      unfold newEntry at hnc
      cases htos : c.toSig with
      | none => rw [htos] at hnc; cases hnc
      | some p =>
        obtain ⟨i0, t0⟩ := p
        rw [htos] at hnc
        change (if i0 ∈ L.map (·.identifier) then none
          else some ⟨i0, t0⟩) = some s at hnc
        by_cases hmem : i0 ∈ L.map (·.identifier)
        · rw [if_pos hmem] at hnc
          cases hnc
        · rw [if_neg hmem] at hnc
          have hse : s = ⟨i0, t0⟩ := (Option.some.inj hnc).symm
          subst hse
          cases hf : C.find? (matchesId ⟨i0, t0⟩) with
          | none => exact updateSignature_eq_none C _ hf
          | some d =>
            have hdisp : d.id = SignatureId.display i0 := by
              have := List.find?_some hf
              simpa [matchesId] using this
            obtain ⟨hw1, hw2⟩ := toSig_wf c i0 t0 htos
            have hdt : d.toSig = some (i0, clipType d) :=
              toSig_of_display d i0 hw1 hw2 hdisp
            have hdC : d ∈ C := List.mem_of_find?_eq_some hf
            have hde : d = c := by
              apply pairwise_ne_inj _ C hdist d hdC c hcC
              rw [hdt, htos]
              rfl
            subst hde
            have ht0 : t0 = clipType d := by
              rw [htos] at hdt
              exact (Prod.mk.injEq _ _ _ _ ▸ Option.some.inj hdt).2
            rw [updateSignature_eq_step C _ d i0 t0 hf (by rw [hdt, ← ht0])]
            have : mergeStep (Signature.mk i0 t0).signature_type t0 = t0 := mergeStep_self t0
            rw [this]
  have hU' := updateAll_of_fixed C L' hfix
  rw [mergeIn_eq L' C L' hU']
  apply appendNew_of_all_mem
  intro c hc
  have hcs := hconv c hc
  cases htos : c.toSig with
  | none => rw [htos] at hcs; cases hcs
  | some p =>
    obtain ⟨i0, t0⟩ := p
    refine ⟨(i0, t0), rfl, ?_⟩
    by_cases hmem : i0 ∈ L.map (·.identifier)
    · rw [hL', List.map_append]
      apply List.mem_append_left
      rw [updateAll_map_identifier C L U hU]
      exact hmem
    · rw [hL', List.map_append]
      apply List.mem_append_right
      have hin : (⟨i0, t0⟩ : Signature) ∈
          C.filterMap (newEntry (L.map (·.identifier))) :=
        List.mem_filterMap.mpr ⟨c, hc, by
          simp [newEntry, htos]
          simpa using hmem⟩
      exact List.mem_map.mpr ⟨⟨i0, t0⟩, hin, rfl⟩

/-- C1 witness. -/
theorem merge_idempotent_witness :
    mergeIn [⟨⟨"ABC", "123"⟩, .Relic (some "X")⟩] [⟨"ABC-123", "Relic", "X"⟩] =
      some [⟨⟨"ABC", "123"⟩, .Relic (some "X")⟩] :=
  merge_idempotent [] [⟨"ABC-123", "Relic", "X"⟩]
    [⟨⟨"ABC", "123"⟩, .Relic (some "X")⟩] (by simp) (by decide)

end Evemapping
